import Mathlib

/-!
Verification development for the QueueCTL background job queue.

The definitions below are a shallow embedding of the Python sources:

* `job.py`      — the `Job` record, its state enum and the `mark_*` mutators;
* `storage.py`  — the SQLite-backed store, modelled as a list of table rows
  in insertion (rowid) order; timestamps are serialized naive-UTC values,
  modelled as natural numbers (ISO-8601 strings of a fixed format compare
  identically to their underlying instants);
* `worker.py`   — outcome recording and the retry/DLQ decision;
* `cli.py`      — the `enqueue` and `dlq retry` entry points.

In-memory Python `datetime` values carry a timezone-awareness bit
(`tzinfo is None` versus an explicit UTC offset); the store strips it on
write (`replace(tzinfo=None)`) and re-adds it on read
(`replace("Z", "+00:00")`).  `PyTime` records the instant together with
that awareness bit.
-/

namespace QueueCTL

/-- State enum `JobState` from `job.py`: the five-state lifecycle enum. -/
inductive JobState where
  | pending
  | processing
  | completed
  | failed
  | dead
deriving DecidableEq

/-- A Python `datetime`: an instant (seconds, modelled as `Nat`) plus the
timezone-awareness bit (`aware = false` models a naive `datetime.utcnow()`,
`aware = true` one carrying an explicit UTC offset). -/
structure PyTime where
  val : Nat
  aware : Bool
deriving DecidableEq

/-- The in-memory `Job` object of `job.py` (no `worker_id` field: that
column lives only in the database). -/
structure Job where
  id : String
  command : String
  state : JobState
  attempts : Nat
  maxRetries : Nat
  createdAt : PyTime
  updatedAt : PyTime
  nextRetryAt : Option PyTime
deriving DecidableEq

/-- One row of the `jobs` table created by `Storage._init_db`.  Stored
timestamps are the serialized naive values (`isoformat() + "Z"`). -/
structure Row where
  id : String
  command : String
  state : JobState
  attempts : Nat
  maxRetries : Nat
  createdAt : Nat
  updatedAt : Nat
  nextRetryAt : Option Nat
  workerId : Option String
deriving DecidableEq

/-- Translation `Storage._row_to_job`: parsing `...Z` as `...+00:00` yields
timezone-aware datetimes, hence `aware := true` on every time field. -/
def rowToJob (r : Row) : Job :=
  { id := r.id
    command := r.command
    state := r.state
    attempts := r.attempts
    maxRetries := r.maxRetries
    createdAt := ⟨r.createdAt, true⟩
    updatedAt := ⟨r.updatedAt, true⟩
    nextRetryAt := r.nextRetryAt.map (fun v => ⟨v, true⟩) }

/-- The row written by `Storage.add_job`: timezone info is stripped
(`replace(tzinfo=None)`) before serialization and `worker_id` is `NULL`. -/
def serializeRow (j : Job) : Row :=
  { id := j.id
    command := j.command
    state := j.state
    attempts := j.attempts
    maxRetries := j.maxRetries
    createdAt := j.createdAt.val
    updatedAt := j.updatedAt.val
    nextRetryAt := j.nextRetryAt.map PyTime.val
    workerId := none }

/-- Insertion `Storage.add_job`: `INSERT` succeeds unless the primary key `id`
already exists (`sqlite3.IntegrityError` → `False`, store unchanged). -/
def addJob (db : List Row) (j : Job) : Bool × List Row :=
  if db.any (fun r => r.id == j.id) then (false, db)
  else (true, db ++ [serializeRow j])

/-- Lookup `Storage.get_job`: snapshot read of a single record by id. -/
def getJob (db : List Row) (jid : String) : Option Job :=
  (db.find? (fun r => r.id == jid)).map rowToJob

/-- Write-back `Storage.update_job`: overwrites `state`, `attempts`, `updated_at`,
`next_retry_at`, `worker_id` of the row whose id matches (`WHERE id = ?`);
`created_at` and `command` are untouched. -/
def updateJob (db : List Row) (j : Job) (wid : Option String) : List Row :=
  db.map fun r =>
    if r.id == j.id then
      { r with state := j.state
               attempts := j.attempts
               updatedAt := j.updatedAt.val
               nextRetryAt := j.nextRetryAt.map PyTime.val
               workerId := wid }
    else r

/-- First SELECT of `Storage.get_pending_job`: `state = 'pending' AND
(next_retry_at IS NULL OR next_retry_at <= now)`. -/
def primaryReady (now : Nat) (r : Row) : Bool :=
  r.state == .pending && (r.nextRetryAt.isNone || r.nextRetryAt.any (fun t => decide (t ≤ now)))

/-- Second SELECT of `Storage.get_pending_job`: `state = 'failed' AND
next_retry_at <= now` (a SQL NULL never satisfies `<=`). -/
def secondaryReady (now : Nat) (r : Row) : Bool :=
  r.state == .failed && r.nextRetryAt.any (fun t => decide (t ≤ now))

/-- Model of `ORDER BY created_at ASC LIMIT 1`: the first row carrying the minimal
`created_at` of the list. -/
def minByCreated? : List Row → Option Row
  | [] => none
  | r :: rs =>
    match minByCreated? rs with
    | none => some r
    | some b => if b.createdAt < r.createdAt then some b else some r

/-- Candidate selection of `Storage.get_pending_job`: the primary
(pending) query first, the secondary (failed, retry-ready) query only if
the primary returned no row. -/
def claimCandidate (db : List Row) (now : Nat) : Option Row :=
  match minByCreated? (db.filter (primaryReady now)) with
  | some r => some r
  | none => minByCreated? (db.filter (secondaryReady now))

/-- The claim UPDATE of `Storage.get_pending_job`:
`UPDATE jobs SET state = 'processing', worker_id = ? WHERE id = ? AND state = ?`
(the compare-and-set keeps the observed pre-claim state in the WHERE). -/
def claimCAS (cand : Row) (wid : String) (r : Row) : Row :=
  if r.id == cand.id && r.state == cand.state then
    { r with state := .processing, workerId := some wid }
  else r

/-- Claim operation `Storage.get_pending_job`: selects a candidate, compare-and-sets it to
`processing` with the caller's worker id, and returns the in-memory job
with `job.state = PROCESSING`.  Evaluated against `now`; in this
sequential model the verify/CAS steps always observe the state that was
just read, as they do inside the `BEGIN IMMEDIATE` transaction. -/
def getPendingJob (db : List Row) (now : Nat) (wid : String) : Option Job × List Row :=
  match claimCandidate db now with
  | none => (none, db)
  | some cand =>
    (some { rowToJob cand with state := .processing }, db.map (claimCAS cand wid))

/-- Mutator `Job.mark_completed`: state to COMPLETED, `updated_at := utcnow()`
(a naive datetime). -/
def markCompleted (j : Job) (now : Nat) : Job :=
  { j with state := .completed, updatedAt := ⟨now, false⟩ }

/-- Mutator `Job.mark_failed(next_retry_at)`: state to FAILED, `attempts += 1`,
`updated_at := utcnow()`, `next_retry_at` to the given value. -/
def markFailed (j : Job) (nra : Option PyTime) (now : Nat) : Job :=
  { j with state := .failed
           attempts := j.attempts + 1
           updatedAt := ⟨now, false⟩
           nextRetryAt := nra }

/-- Mutator `Job.mark_dead`: state to DEAD, `updated_at := utcnow()`;
`next_retry_at` is NOT touched. -/
def markDead (j : Job) (now : Nat) : Job :=
  { j with state := .dead, updatedAt := ⟨now, false⟩ }

/-- Predicate `Job.should_retry`: `attempts < max_retries and state == FAILED`. -/
def shouldRetry (j : Job) : Bool :=
  decide (j.attempts < j.maxRetries) && j.state == .failed

/-- Failure handler `Worker._handle_failure`: if `should_retry()`, compute
`delay = backoff_base ** attempts` (the pre-increment value), set
`next_retry_at := utcnow() + delay` and `mark_failed`; otherwise
`mark_dead`. -/
def handleFailure (base : Nat) (j : Job) (now : Nat) : Job :=
  if shouldRetry j then
    markFailed j (some ⟨now + base ^ j.attempts, false⟩) now
  else markDead j now

/-- The outcome write of `Worker._process_job`: `mark_completed` on exit
status zero, `_handle_failure` on any failure, then `update_job` with the
worker's id. -/
def recordOutcome (base : Nat) (db : List Row) (j : Job) (success : Bool)
    (now : Nat) (wid : String) : List Row :=
  if success then updateJob db (markCompleted j now) (some wid)
  else updateJob db (handleFailure base j now) (some wid)

/-- Result taxonomy of the `dlq retry` command. -/
inductive DlqResult where
  | ok
  | notFound
  | notDead
deriving DecidableEq

/-- Command `dlq retry` from `cli.py`: look the job up; unknown id → NotFound; state other
than DEAD → NotDead (nothing written); otherwise reset `state := PENDING`,
`attempts := 0`, `next_retry_at := None` and write via `update_job`
(whose `worker_id` parameter defaults to `None`).  `updated_at` is not
assigned anywhere on this path. -/
def dlqRetry (db : List Row) (jid : String) : DlqResult × List Row :=
  match getJob db jid with
  | none => (.notFound, db)
  | some j =>
    if j.state == .dead then
      (.ok, updateJob db { j with state := .pending, attempts := 0, nextRetryAt := none } none)
    else (.notDead, db)

/-- The job constructed by `cli.py enqueue`: PENDING, zero attempts,
`created_at`/`updated_at` from `datetime.utcnow()` (naive), no
`next_retry_at`. -/
def enqueueJob (jid cmd : String) (mr now : Nat) : Job :=
  { id := jid
    command := cmd
    state := .pending
    attempts := 0
    maxRetries := mr
    createdAt := ⟨now, false⟩
    updatedAt := ⟨now, false⟩
    nextRetryAt := none }

/-- Command `enqueue` from `cli.py`: build the job and `add_job` it. -/
def enqueue (db : List Row) (jid cmd : String) (mr now : Nat) : Bool × List Row :=
  addJob db (enqueueJob jid cmd mr now)

/-!
Transition system over the implemented operations.  A system state is the
stored table plus the in-memory jobs currently held by workers between
their claim and their outcome write (the worker loop's `current_job`,
tagged with the claiming worker's id).  The steps are exactly the
operations the program performs against the store: `enqueue`, the claim
(`get_pending_job`), the outcome write of `Worker._process_job`, and the
CLI's `dlq retry`.
-/

/-- A store state together with the claimed-but-unfinished in-memory
jobs. -/
structure Sys where
  db : List Row
  inflight : List (Job × String)

/-- Steps: each constructor is one operation of the program. -/
inductive Step : Sys → Sys → Prop
  | enq (σ : Sys) (jid cmd : String) (mr now : Nat) :
      Step σ ⟨(enqueue σ.db jid cmd mr now).2, σ.inflight⟩
  | claim (σ : Sys) (now : Nat) (wid : String) :
      Step σ ⟨(getPendingJob σ.db now wid).2,
              match (getPendingJob σ.db now wid).1 with
              | some j => (j, wid) :: σ.inflight
              | none => σ.inflight⟩
  | outcome (σ : Sys) (j : Job) (wid : String) (pre post : List (Job × String))
      (success : Bool) (base now : Nat)
      (hin : σ.inflight = pre ++ (j, wid) :: post) :
      Step σ ⟨recordOutcome base σ.db j success now wid, pre ++ post⟩
  | dlq (σ : Sys) (jid : String) :
      Step σ ⟨(dlqRetry σ.db jid).2, σ.inflight⟩

/-- The empty store nobody has claimed from. -/
def initSys : Sys := ⟨[], []⟩

/-- States reachable from the empty store through the implemented
operations. -/
def Reachable (σ : Sys) : Prop := Relation.ReflTransGen Step initSys σ

/-- The invariant every reachable row satisfies: because
`Job.should_retry` tests `state == FAILED` while the job a worker holds is
in `PROCESSING`, the retry branch of `Worker._handle_failure` never runs,
so no operation ever sets `next_retry_at`, produces a `FAILED` row, or
increments `attempts`. -/
def RowOK (r : Row) : Prop :=
  r.nextRetryAt = none ∧ r.state ≠ .failed ∧ r.attempts = 0

/-- The same invariant for an in-memory claimed job. -/
def JobOK (j : Job) : Prop :=
  j.nextRetryAt = none ∧ j.state ≠ .failed ∧ j.attempts = 0

/-- Full system invariant. -/
def Inv (σ : Sys) : Prop :=
  (∀ r ∈ σ.db, RowOK r) ∧ (∀ p ∈ σ.inflight, JobOK p.1)

/-!
Concrete instances used to exercise the theorems, shaped after the spec's
end-to-end scenarios.
-/

/-- Store after enqueueing `{"id":"f1","command":"exit 1"}` with
`max_retries = 2` at time 0 (scenario 2 of the spec). -/
def dbF : List Row := (enqueue [] "f1" "exit 1" 2 0).2

/-- The in-memory job the claim on `dbF` at time 1 returns. -/
def jF : Job :=
  { id := "f1", command := "exit 1", state := .processing, attempts := 0,
    maxRetries := 2, createdAt := ⟨0, true⟩, updatedAt := ⟨0, true⟩,
    nextRetryAt := none }

/-- Variant of `jF` whose in-memory state is FAILED — the only state in
which `should_retry` can answer true. -/
def jFS : Job := { jF with state := .failed }

/-- A job exactly as `enqueue` builds it: naive `utcnow()` timestamps. -/
def jN : Job := enqueueJob "p1" "echo Persisted" 3 7

/-- A store holding one DEAD record whose `updated_at` is 5. -/
def dbD : List Row :=
  [{ id := "d1", command := "exit 1", state := .dead, attempts := 3, maxRetries := 2,
     createdAt := 1, updatedAt := 5, nextRetryAt := none, workerId := some "w0" }]

/-- The DEAD job read back from `dbD` (timezone-aware timestamps). -/
def jD : Job :=
  { id := "d1", command := "exit 1", state := .dead, attempts := 3, maxRetries := 2,
    createdAt := ⟨1, true⟩, updatedAt := ⟨5, true⟩, nextRetryAt := none }

/-- A store holding one PENDING record whose `updated_at` is 5. -/
def dbP : List Row :=
  [{ id := "t1", command := "echo Hello", state := .pending, attempts := 0, maxRetries := 3,
     createdAt := 1, updatedAt := 5, nextRetryAt := none, workerId := none }]

/-- Store `dbP` after the claim at time 10 by worker `w1`. -/
def dbP2 : List Row := (getPendingJob dbP 10 "w1").2

/-- The job claimed from `dbP`. -/
def jP : Job :=
  { id := "t1", command := "echo Hello", state := .processing, attempts := 0,
    maxRetries := 3, createdAt := ⟨1, true⟩, updatedAt := ⟨5, true⟩, nextRetryAt := none }

/-- Row of `t1` after its failed outcome is recorded at time 7. -/
def rStar : Row :=
  { id := "t1", command := "echo Hello", state := .dead, attempts := 0, maxRetries := 3,
    createdAt := 1, updatedAt := 7, nextRetryAt := none, workerId := some "w1" }

/-- Two fresh pending jobs, for the double-claim scenario. -/
def dbW : List Row :=
  (enqueue (enqueue [] "m0" "sleep 1" 3 0).2 "m1" "sleep 1" 3 1).2

/-- First job claimed from `dbW`. -/
def jA : Job :=
  { id := "m0", command := "sleep 1", state := .processing, attempts := 0,
    maxRetries := 3, createdAt := ⟨0, true⟩, updatedAt := ⟨0, true⟩, nextRetryAt := none }

/-- Second job claimed from `dbW`. -/
def jB : Job :=
  { id := "m1", command := "sleep 1", state := .processing, attempts := 0,
    maxRetries := 3, createdAt := ⟨1, true⟩, updatedAt := ⟨1, true⟩, nextRetryAt := none }

/-- System state after one enqueue step from the empty store. -/
def sys1 : Sys := ⟨(enqueue [] "t1" "echo Hello" 3 0).2, []⟩

/-- The row that enqueue stores in `sys1`. -/
def rowT1 : Row :=
  { id := "t1", command := "echo Hello", state := .pending, attempts := 0, maxRetries := 3,
    createdAt := 0, updatedAt := 0, nextRetryAt := none, workerId := none }

/-! Helper lemmas about the candidate selection. -/

theorem minByCreated?_eq_none {l : List Row} : minByCreated? l = none ↔ l = [] := by
  induction l with
  | nil => simp [minByCreated?]
  | cons a t ih =>
    constructor
    · intro hc
      exfalso
      simp only [minByCreated?] at hc
      cases hm : minByCreated? t with
      | none => rw [hm] at hc; exact Option.noConfusion hc
      | some b =>
        rw [hm] at hc
        dsimp only at hc
        by_cases hlt : b.createdAt < a.createdAt
        · rw [if_pos hlt] at hc; exact Option.noConfusion hc
        · rw [if_neg hlt] at hc; exact Option.noConfusion hc
    · intro hc; exact List.noConfusion hc

theorem minByCreated?_mem {l : List Row} {r : Row} (h : minByCreated? l = some r) :
    r ∈ l := by
  induction l generalizing r with
  | nil => simp [minByCreated?] at h
  | cons a t ih =>
    simp only [minByCreated?] at h
    cases hm : minByCreated? t with
    | none =>
      rw [hm] at h
      injection h with h
      exact h ▸ List.mem_cons_self a t
    | some b =>
      rw [hm] at h
      dsimp only at h
      by_cases hlt : b.createdAt < a.createdAt
      · rw [if_pos hlt] at h
        injection h with h
        exact List.mem_cons_of_mem a (ih (h ▸ hm))
      · rw [if_neg hlt] at h
        injection h with h
        exact h ▸ List.mem_cons_self a t

theorem minByCreated?_min {l : List Row} {r : Row} (h : minByCreated? l = some r) :
    ∀ x ∈ l, r.createdAt ≤ x.createdAt := by
  induction l generalizing r with
  | nil => simp [minByCreated?] at h
  | cons a t ih =>
    intro x hx
    simp only [minByCreated?] at h
    cases hm : minByCreated? t with
    | none =>
      rw [hm] at h
      injection h with h
      subst h
      have ht : t = [] := minByCreated?_eq_none.mp hm
      subst ht
      rcases List.mem_cons.mp hx with h1 | h1
      · exact h1 ▸ Nat.le_refl _
      · exact absurd h1 (List.not_mem_nil x)
    | some b =>
      rw [hm] at h
      dsimp only at h
      by_cases hlt : b.createdAt < a.createdAt
      · rw [if_pos hlt] at h
        injection h with h
        subst h
        rcases List.mem_cons.mp hx with h1 | h1
        · exact h1 ▸ Nat.le_of_lt hlt
        · exact ih hm x h1
      · rw [if_neg hlt] at h
        injection h with h
        subst h
        rcases List.mem_cons.mp hx with h1 | h1
        · exact h1 ▸ Nat.le_refl _
        · exact Nat.le_trans (Nat.le_of_not_lt hlt) (ih hm x h1)

theorem claimCandidate_spec {db : List Row} {now : Nat} {c : Row}
    (h : claimCandidate db now = some c) :
    (c ∈ db ∧ primaryReady now c = true ∧
       ∀ x ∈ db, primaryReady now x = true → c.createdAt ≤ x.createdAt) ∨
    (c ∈ db ∧ secondaryReady now c = true ∧
       (∀ x ∈ db, ¬ primaryReady now x = true) ∧
       ∀ x ∈ db, secondaryReady now x = true → c.createdAt ≤ x.createdAt) := by
  unfold claimCandidate at h
  cases hm : minByCreated? (db.filter (primaryReady now)) with
  | some b =>
    rw [hm] at h
    injection h with h
    subst h
    left
    have hmem := List.mem_filter.mp (minByCreated?_mem hm)
    exact ⟨hmem.1, hmem.2, fun x hx hpx =>
      minByCreated?_min hm x (List.mem_filter.mpr ⟨hx, hpx⟩)⟩
  | none =>
    rw [hm] at h
    right
    have hnil : db.filter (primaryReady now) = [] := minByCreated?_eq_none.mp hm
    have hno : ∀ x ∈ db, ¬ primaryReady now x = true :=
      fun x hx => List.filter_eq_nil_iff.mp hnil x hx
    have hmem := List.mem_filter.mp (minByCreated?_mem h)
    exact ⟨hmem.1, hmem.2, hno, fun x hx hsx =>
      minByCreated?_min h x (List.mem_filter.mpr ⟨hx, hsx⟩)⟩

theorem claimCandidate_mem {db : List Row} {now : Nat} {c : Row}
    (h : claimCandidate db now = some c) : c ∈ db := by
  rcases claimCandidate_spec h with h1 | h1
  · exact h1.1
  · exact h1.1

theorem claimCandidate_eq_none {db : List Row} {now : Nat} :
    claimCandidate db now = none ↔
      (∀ x ∈ db, ¬ primaryReady now x = true) ∧
      (∀ x ∈ db, ¬ secondaryReady now x = true) := by
  unfold claimCandidate
  cases hm : minByCreated? (db.filter (primaryReady now)) with
  | some b =>
    constructor
    · intro hc; exact Option.noConfusion hc
    · intro hall
      exfalso
      have hmem := List.mem_filter.mp (minByCreated?_mem hm)
      exact hall.1 b hmem.1 hmem.2
  | none =>
    have hnil : db.filter (primaryReady now) = [] := minByCreated?_eq_none.mp hm
    constructor
    · intro hc
      refine ⟨fun x hx => List.filter_eq_nil_iff.mp hnil x hx, fun x hx => ?_⟩
      have : db.filter (secondaryReady now) = [] := minByCreated?_eq_none.mp hc
      exact List.filter_eq_nil_iff.mp this x hx
    · intro hall
      rw [minByCreated?_eq_none, List.filter_eq_nil_iff]
      exact hall.2

theorem getPendingJob_of_cand_none {db : List Row} {now : Nat} (wid : String)
    (h : claimCandidate db now = none) :
    getPendingJob db now wid = (none, db) := by
  unfold getPendingJob
  rw [h]

theorem getPendingJob_of_cand_some {db : List Row} {now : Nat} {c : Row} (wid : String)
    (h : claimCandidate db now = some c) :
    getPendingJob db now wid =
      (some { rowToJob c with state := .processing }, db.map (claimCAS c wid)) := by
  unfold getPendingJob
  rw [h]

theorem primaryReady_state {now : Nat} {r : Row} (h : primaryReady now r = true) :
    r.state = .pending :=
  eq_of_beq ((Bool.and_eq_true _ _).mp h).1

theorem secondaryReady_state {now : Nat} {r : Row} (h : secondaryReady now r = true) :
    r.state = .failed :=
  eq_of_beq ((Bool.and_eq_true _ _).mp h).1

/-! Helper lemmas about row rewrites. -/

theorem find?_map_of_pred_inv (f : Row → Row) (p : Row → Bool)
    (hp : ∀ r, p (f r) = p r) :
    ∀ l : List Row, (l.map f).find? p = (l.find? p).map f := by
  intro l
  induction l with
  | nil => rfl
  | cons a t ih =>
    simp only [List.map_cons, List.find?_cons, hp a]
    cases p a with
    | true => rfl
    | false => exact ih

theorem updateJob_id_inv (j : Job) (wid : Option String) (r : Row) :
    ((fun r => if r.id == j.id then
      { r with state := j.state, attempts := j.attempts, updatedAt := j.updatedAt.val,
               nextRetryAt := j.nextRetryAt.map PyTime.val, workerId := wid }
     else r) r).id = r.id := by
  dsimp only
  by_cases h : (r.id == j.id) = true
  · rw [if_pos h]
  · rw [if_neg h]

theorem handleFailure_updatedAt (base : Nat) (j : Job) (now : Nat) :
    (handleFailure base j now).updatedAt = ⟨now, false⟩ := by
  unfold handleFailure markFailed markDead
  by_cases h : shouldRetry j = true
  · rw [if_pos h]
  · rw [if_neg h]

theorem handleFailure_id (base : Nat) (j : Job) (now : Nat) :
    (handleFailure base j now).id = j.id := by
  unfold handleFailure markFailed markDead
  by_cases h : shouldRetry j = true
  · rw [if_pos h]
  · rw [if_neg h]

theorem shouldRetry_eq_false_of_state {j : Job} (h : j.state ≠ .failed) :
    shouldRetry j = false := by
  unfold shouldRetry
  rw [beq_eq_false_iff_ne.mpr h]
  exact Bool.and_false _


theorem updateJob_pres {P : Row → Prop} {db : List Row} {j : Job} {wid : Option String}
    (hdb : ∀ r ∈ db, P r)
    (hj : ∀ r ∈ db, P { r with state := j.state, attempts := j.attempts,
                                updatedAt := j.updatedAt.val,
                                nextRetryAt := j.nextRetryAt.map PyTime.val,
                                workerId := wid }) :
    ∀ r' ∈ updateJob db j wid, P r' := by
  intro r' h
  rw [updateJob, List.mem_map] at h
  obtain ⟨r, hr, hEq⟩ := h
  subst hEq
  try dsimp only
  by_cases hc : (r.id == j.id) = true
  · rw [if_pos hc]; exact hj r hr
  · rw [if_neg hc]; exact hdb r hr

theorem claimCAS_pres {P : Row → Prop} {db : List Row} {cand : Row} {wid : String}
    (hdb : ∀ r ∈ db, P r)
    (hc : ∀ r ∈ db, P { r with state := JobState.processing, workerId := some wid }) :
    ∀ r' ∈ db.map (claimCAS cand wid), P r' := by
  intro r' h
  rw [List.mem_map] at h
  obtain ⟨r, hr, hEq⟩ := h
  subst hEq
  unfold claimCAS
  by_cases hcond : (r.id == cand.id && r.state == cand.state) = true
  · rw [if_pos hcond]; exact hc r hr
  · rw [if_neg hcond]; exact hdb r hr

theorem inv_init : Inv initSys := by
  constructor
  · intro r hr; exact absurd hr (List.not_mem_nil r)
  · intro p hp; exact absurd hp (List.not_mem_nil p)

theorem inv_step {σ σ' : Sys} (hI : Inv σ) (hs : Step σ σ') : Inv σ' := by
  obtain ⟨hdb, hinf⟩ := hI
  cases hs with
  | enq jid cmd mr now =>
    refine ⟨?_, hinf⟩
    intro r hr
    dsimp only [enqueue, addJob] at hr
    by_cases hc : (σ.db.any (fun r => r.id == (enqueueJob jid cmd mr now).id)) = true
    · rw [if_pos hc] at hr; exact hdb r hr
    · rw [if_neg hc] at hr
      rcases List.mem_append.mp hr with h | h
      · exact hdb r h
      · rw [List.mem_singleton] at h
        subst h
        exact ⟨rfl, fun hs => JobState.noConfusion hs, rfl⟩
  | claim now wid =>
    cases hcand : claimCandidate σ.db now with
    | none =>
      rw [getPendingJob_of_cand_none wid hcand]
      exact ⟨hdb, hinf⟩
    | some cand =>
      rw [getPendingJob_of_cand_some wid hcand]
      dsimp only
      constructor
      · refine claimCAS_pres hdb ?_
        intro r hr
        obtain ⟨h1, _, h3⟩ := hdb r hr
        exact ⟨h1, fun hs => JobState.noConfusion hs, h3⟩
      · intro p hp
        rcases List.mem_cons.mp hp with h | h
        · subst h
          obtain ⟨h1, _, h3⟩ := hdb cand (claimCandidate_mem hcand)
          refine ⟨?_, fun hs => JobState.noConfusion hs, h3⟩
          show (rowToJob cand).nextRetryAt = none
          rw [rowToJob]
          dsimp only
          rw [h1]
          rfl
        · exact hinf p h
  | outcome j wid pre post success base now hin =>
    have hjok : JobOK j := hinf (j, wid) (by rw [hin]; exact List.mem_append_right pre (List.mem_cons_self _ _))
    obtain ⟨hj1, hj2, hj3⟩ := hjok
    constructor
    · dsimp only
      unfold recordOutcome
      by_cases hs : success = true
      · rw [if_pos hs]
        refine updateJob_pres hdb ?_
        intro r hr
        exact ⟨by rw [markCompleted]; dsimp only; rw [hj1]; rfl,
               fun hst => JobState.noConfusion hst, by rw [markCompleted]; dsimp only; rw [hj3]⟩
      · rw [if_neg hs]
        have hsr : shouldRetry j = false := shouldRetry_eq_false_of_state hj2
        have hhf : handleFailure base j now = markDead j now := by
          unfold handleFailure
          rw [hsr]
          rfl
        rw [hhf]
        refine updateJob_pres hdb ?_
        intro r hr
        exact ⟨by rw [markDead]; dsimp only; rw [hj1]; rfl,
               fun hst => JobState.noConfusion hst, by rw [markDead]; dsimp only; rw [hj3]⟩
    · intro p hp
      refine hinf p ?_
      rw [hin]
      rcases List.mem_append.mp hp with h | h
      · exact List.mem_append_left _ h
      · exact List.mem_append_right _ (List.mem_cons_of_mem _ h)
  | dlq jid =>
    refine ⟨?_, hinf⟩
    dsimp only
    unfold dlqRetry
    cases hg : getJob σ.db jid with
    | none => exact hdb
    | some jj =>
      dsimp only
      by_cases hst : (jj.state == JobState.dead) = true
      · rw [if_pos hst]
        dsimp only
        refine updateJob_pres hdb ?_
        intro r hr
        exact ⟨rfl, fun hs => JobState.noConfusion hs, rfl⟩
      · rw [if_neg hst]
        exact hdb

theorem inv_reachable {σ : Sys} (h : Reachable σ) : Inv σ := by
  unfold Reachable at h
  induction h with
  | refl => exact inv_init
  | tail hab hbc ih => exact inv_step ih hbc

/-! Further helper lemmas used by the claim theorems. -/

theorem getJob_some_elim {db : List Row} {jid : String} {j : Job}
    (h : getJob db jid = some j) :
    ∃ r0, db.find? (fun r => r.id == jid) = some r0 ∧ rowToJob r0 = j := by
  unfold getJob at h
  cases hf : db.find? (fun r => r.id == jid) with
  | none => rw [hf] at h; exact Option.noConfusion h
  | some r0 => rw [hf] at h; exact ⟨r0, rfl, Option.some.inj h⟩

theorem updateJob_updatedAt {db : List Row} {jw : Job} {wid : Option String} {r : Row}
    (hr : r ∈ updateJob db jw wid) (hrid : r.id = jw.id) :
    r.updatedAt = jw.updatedAt.val := by
  rw [updateJob, List.mem_map] at hr
  obtain ⟨x, hx, hEq⟩ := hr
  subst hEq
  try dsimp only
  try dsimp only at hrid
  by_cases hc : (x.id == jw.id) = true
  · rw [if_pos hc]
  · rw [if_neg hc] at hrid
    exact absurd (beq_iff_eq.mpr hrid) hc

theorem updateJob_mem_cases {db : List Row} {jw : Job} {wid : Option String} {r : Row}
    (hr : r ∈ updateJob db jw wid) :
    (∃ x ∈ db, r = x) ∨ r.updatedAt = jw.updatedAt.val := by
  rw [updateJob, List.mem_map] at hr
  obtain ⟨x, hx, hEq⟩ := hr
  subst hEq
  try dsimp only
  by_cases hc : (x.id == jw.id) = true
  · right; rw [if_pos hc]
  · left; exact ⟨x, hx, by rw [if_neg hc]⟩

theorem find?_updateJob (db : List Row) (jw : Job) (wid : Option String) (jid : String) :
    (updateJob db jw wid).find? (fun r => r.id == jid) =
      (db.find? (fun r => r.id == jid)).map (fun r =>
        if r.id == jw.id then
          { r with state := jw.state, attempts := jw.attempts, updatedAt := jw.updatedAt.val,
                   nextRetryAt := jw.nextRetryAt.map PyTime.val, workerId := wid }
        else r) := by
  unfold updateJob
  refine find?_map_of_pred_inv _ _ ?_ db
  intro r
  try dsimp only
  by_cases hc : (r.id == jw.id) = true
  · rw [if_pos hc]
  · rw [if_neg hc]

theorem sys1_reachable : Reachable sys1 :=
  Relation.ReflTransGen.single (Step.enq initSys "t1" "echo Hello" 3 0)

/-! Claim theorems. -/

/-- C1 (code bug witness): with `max_retries = 2` a job whose first
execution fails is already DEAD, with `attempts = 0`.  The claim requires
it to become DEAD only after the third failed execution with
`attempts = 3`; the cause is that `Job.should_retry` tests
`state == FAILED`, while the job a worker holds after a claim is in
PROCESSING, so the retry branch of `Worker._handle_failure` never runs. -/
theorem c1_dead_after_first_failure :
    (getPendingJob dbF 1 "w0").1 = some jF ∧
    ((recordOutcome 2 (getPendingJob dbF 1 "w0").2 jF false 1 "w0").find?
        (fun r => r.id == "f1")).map (fun r => (r.state, r.attempts)) =
      some (JobState.dead, 0) := by decide

/-- C2 counterexample: a claimed job (`jF`, state PROCESSING, attempts 0,
`backoff_base = 2`) that suffers its 1st failure at time 100 gets no
retry at all — attempts stays 0 and `next_retry_at` stays null — and even
for a job whose in-memory state is FAILED (`jFS`) the scheduled delay
after the 1st failure is `2 ^ 0 = 1` second, not `2 ^ 1 = 2` as the claim
states. -/
theorem c2_counterexample :
    (handleFailure 2 jF 100).nextRetryAt = none ∧
    (handleFailure 2 jF 100).attempts = 0 ∧
    (handleFailure 2 jFS 100).attempts = 1 ∧
    (handleFailure 2 jFS 100).nextRetryAt = some ⟨101, false⟩ ∧
    (101 : Nat) ≠ 100 + 2 ^ 1 := by decide

/-- C2 (amended): the retry branch of `_handle_failure` fires only when
the in-memory state is FAILED and `attempts < max_retries`; it computes
the delay from the pre-increment attempts count — `backoff_base^(n-1)`
seconds before the n-th failure's retry — and then increments attempts to
n.  A claimed job (state PROCESSING) never takes this branch and is
marked DEAD instead. -/
theorem c2_backoff_amended (base : Nat) (j : Job) (now : Nat)
    (hs : j.state = JobState.failed) (ha : j.attempts < j.maxRetries) :
    (handleFailure base j now).attempts = j.attempts + 1 ∧
    (handleFailure base j now).nextRetryAt = some ⟨now + base ^ j.attempts, false⟩ ∧
    (handleFailure base { j with state := JobState.processing } now).state = JobState.dead := by
  have hsr : shouldRetry j = true := by
    unfold shouldRetry
    rw [Bool.and_eq_true]
    exact ⟨decide_eq_true ha, beq_iff_eq.mpr hs⟩
  have hnot : ¬ (shouldRetry { j with state := JobState.processing } = true) := by
    rw [shouldRetry_eq_false_of_state (fun h => JobState.noConfusion h)]
    exact Bool.false_ne_true
  unfold handleFailure
  rw [if_pos hsr, if_neg hnot]
  exact ⟨rfl, rfl, rfl⟩

/-- Witness for the amended C2 at the concrete FAILED-state job `jFS`. -/
theorem c2_backoff_amended_witness :
    (handleFailure 2 jFS 100).attempts = jFS.attempts + 1 ∧
    (handleFailure 2 jFS 100).nextRetryAt = some ⟨100 + 2 ^ jFS.attempts, false⟩ ∧
    (handleFailure 2 { jFS with state := JobState.processing } 100).state = JobState.dead :=
  c2_backoff_amended 2 jFS 100 (by decide) (by decide)

/-- C6: in every state reachable through the implemented operations, a
record's `next_retry_at` is non-null iff its state is FAILED and its
attempts do not exceed `max_retries`.  (It holds because no reachable
record is ever FAILED and no reachable record ever carries a
`next_retry_at`: the retry branch that would produce them is
unreachable.) -/
theorem c6_next_retry_iff (σ : Sys) (hσ : Reachable σ) :
    ∀ r ∈ σ.db, (r.nextRetryAt ≠ none ↔
      r.state = JobState.failed ∧ r.attempts ≤ r.maxRetries) := by
  intro r hr
  obtain ⟨h1, h2, _⟩ := (inv_reachable hσ).1 r hr
  constructor
  · intro hne; exact absurd h1 hne
  · rintro ⟨hst, _⟩; exact absurd hst h2

/-- Witness for C6 on the store reached by a single enqueue. -/
theorem c6_next_retry_iff_witness :
    rowT1.nextRetryAt ≠ none ↔
      rowT1.state = JobState.failed ∧ rowT1.attempts ≤ rowT1.maxRetries :=
  c6_next_retry_iff sys1 sys1_reachable rowT1 (by decide)

/-- C7: `add_job` returns false iff a record with the same id already
exists, in which case the store is unchanged; otherwise it returns true
and appends exactly the serialized record.  No other outcome exists: the
embedded operation is total. -/
theorem c7_add_job_contract (db : List Row) (j : Job) :
    ((addJob db j).1 = false ↔ ∃ r ∈ db, r.id = j.id) ∧
    ((addJob db j).1 = false → (addJob db j).2 = db) ∧
    ((addJob db j).1 = true → (addJob db j).2 = db ++ [serializeRow j]) := by
  unfold addJob
  by_cases hc : (db.any (fun r => r.id == j.id)) = true
  · rw [if_pos hc]
    refine ⟨⟨fun _ => ?_, fun _ => rfl⟩, fun _ => rfl, fun h => Bool.noConfusion h⟩
    obtain ⟨r, hr, hb⟩ := List.any_eq_true.mp hc
    exact ⟨r, hr, eq_of_beq hb⟩
  · rw [if_neg hc]
    refine ⟨⟨fun h => Bool.noConfusion h, ?_⟩, fun h => Bool.noConfusion h, fun _ => rfl⟩
    rintro ⟨r, hr, hid⟩
    exact absurd (List.any_eq_true.mpr
      ⟨r, hr, (beq_iff_eq.mpr hid : (r.id == j.id) = true)⟩) hc

/-- Witness for C7: inserting `jD` into `dbD` (which already holds id
`d1`) reports a duplicate and leaves the store unchanged. -/
theorem c7_add_job_contract_witness :
    (∃ r ∈ dbD, r.id = jD.id) ∧ (addJob dbD jD).2 = dbD :=
  ⟨(c7_add_job_contract dbD jD).1.mp (by decide),
   (c7_add_job_contract dbD jD).2.1 (by decide)⟩

/-- C10: in every reachable store state, every record satisfies
`attempts ≤ max_retries`.  (In fact every reachable record has
`attempts = 0`, since the only incrementing operation — `mark_failed`
through the retry branch — never runs.) -/
theorem c10_attempts_le_max_retries (σ : Sys) (hσ : Reachable σ) :
    ∀ r ∈ σ.db, r.attempts ≤ r.maxRetries := by
  intro r hr
  have h := (inv_reachable hσ).1 r hr
  rw [h.2.2]
  exact Nat.zero_le _

/-- Witness for C10 on the store reached by a single enqueue. -/
theorem c10_attempts_le_max_retries_witness : rowT1.attempts ≤ rowT1.maxRetries :=
  c10_attempts_le_max_retries sys1 sys1_reachable rowT1 (by decide)

/-- C3: the claim operation, evaluated at time `now`, claims a record
with smallest `created_at` among the PENDING records whose
`next_retry_at` is null or has passed; if there is none, it claims a
record with smallest `created_at` among the FAILED records whose
`next_retry_at` has passed; otherwise it returns null and leaves the
store unchanged.  The claimed record is stored with state PROCESSING and
the caller's worker id. -/
theorem c3_claim_selection (db : List Row) (now : Nat) (wid : String) :
    ((∃ r ∈ db, primaryReady now r = true) →
      ∃ r ∈ db, primaryReady now r = true ∧
        (∀ x ∈ db, primaryReady now x = true → r.createdAt ≤ x.createdAt) ∧
        (getPendingJob db now wid).1 = some { rowToJob r with state := JobState.processing } ∧
        { r with state := JobState.processing, workerId := some wid } ∈
          (getPendingJob db now wid).2) ∧
    ((∀ x ∈ db, ¬ primaryReady now x = true) → (∃ r ∈ db, secondaryReady now r = true) →
      ∃ r ∈ db, secondaryReady now r = true ∧
        (∀ x ∈ db, secondaryReady now x = true → r.createdAt ≤ x.createdAt) ∧
        (getPendingJob db now wid).1 = some { rowToJob r with state := JobState.processing } ∧
        { r with state := JobState.processing, workerId := some wid } ∈
          (getPendingJob db now wid).2) ∧
    ((∀ x ∈ db, ¬ primaryReady now x = true) → (∀ x ∈ db, ¬ secondaryReady now x = true) →
      getPendingJob db now wid = (none, db)) := by
  cases hcand : claimCandidate db now with
  | none =>
    have hno := claimCandidate_eq_none.mp hcand
    refine ⟨?_, ?_, ?_⟩
    · rintro ⟨r, hr, hp⟩
      exact absurd hp (hno.1 r hr)
    · rintro _ ⟨r, hr, hs2⟩
      exact absurd hs2 (hno.2 r hr)
    · intro _ _
      exact getPendingJob_of_cand_none wid hcand
  | some c =>
    have hres := getPendingJob_of_cand_some wid hcand
    have hmemc : c ∈ db := claimCandidate_mem hcand
    have hclaimed : { c with state := JobState.processing, workerId := some wid } ∈
        (getPendingJob db now wid).2 := by
      rw [hres]
      have hmm := List.mem_map_of_mem (claimCAS c wid) hmemc
      have hcas : claimCAS c wid c =
          { c with state := JobState.processing, workerId := some wid } := by
        unfold claimCAS
        rw [if_pos]
        rw [Bool.and_eq_true]
        exact ⟨beq_self_eq_true _, beq_self_eq_true _⟩
      rw [hcas] at hmm
      exact hmm
    have hfst : (getPendingJob db now wid).1 =
        some { rowToJob c with state := JobState.processing } := by
      rw [hres]
    rcases claimCandidate_spec hcand with ⟨hc1, hc2, hc3⟩ | ⟨hc1, hc2, hcno, hc3⟩
    · refine ⟨?_, ?_, ?_⟩
      · intro _
        exact ⟨c, hc1, hc2, hc3, hfst, hclaimed⟩
      · intro hnop _
        exact absurd hc2 (hnop c hc1)
      · intro hnop _
        exact absurd hc2 (hnop c hc1)
    · refine ⟨?_, ?_, ?_⟩
      · rintro ⟨r, hr, hp⟩
        exact absurd hp (hcno r hr)
      · intro _ _
        exact ⟨c, hc1, hc2, hc3, hfst, hclaimed⟩
      · intro _ hnos
        exact absurd hc2 (hnos c hc1)

/-- Witness for C3: on a store with two ready PENDING jobs the older one
(`m0`) is claimed. -/
theorem c3_claim_selection_witness :
    ∃ r ∈ dbW, primaryReady 10 r = true ∧
      (∀ x ∈ dbW, primaryReady 10 x = true → r.createdAt ≤ x.createdAt) ∧
      (getPendingJob dbW 10 "w1").1 = some { rowToJob r with state := JobState.processing } ∧
      { r with state := JobState.processing, workerId := some "w1" } ∈
        (getPendingJob dbW 10 "w1").2 :=
  (c3_claim_selection dbW 10 "w1").1 (by decide)

/-- C4: two claim calls, serialized by the store's `BEGIN IMMEDIATE`
transaction as the code requires, never return the same job: the second
call runs against the store in which the first claim already set the row
to PROCESSING, and PROCESSING rows are in neither candidate set.  The id
uniqueness hypothesis is the store's primary-key invariant I1. -/
theorem c4_no_double_claim (db : List Row) (now1 now2 : Nat) (w1 w2 : String)
    (hids : (db.map Row.id).Nodup) (j1 j2 : Job)
    (h1 : (getPendingJob db now1 w1).1 = some j1)
    (h2 : (getPendingJob (getPendingJob db now1 w1).2 now2 w2).1 = some j2) :
    j1.id ≠ j2.id := by
  cases hc1 : claimCandidate db now1 with
  | none =>
    rw [getPendingJob_of_cand_none w1 hc1] at h1
    exact absurd h1 (by simp)
  | some c1 =>
    rw [getPendingJob_of_cand_some w1 hc1] at h1 h2
    dsimp only at h1 h2
    injection h1 with h1
    cases hc2 : claimCandidate (db.map (claimCAS c1 w1)) now2 with
    | none =>
      rw [getPendingJob_of_cand_none w2 hc2] at h2
      exact absurd h2 (by simp)
    | some c2 =>
      rw [getPendingJob_of_cand_some w2 hc2] at h2
      dsimp only at h2
      injection h2 with h2
      intro heq
      have hid1 : j1.id = c1.id := by rw [← h1]; rfl
      have hid2 : j2.id = c2.id := by rw [← h2]; rfl
      have hc2state : c2.state = JobState.pending ∨ c2.state = JobState.failed := by
        rcases claimCandidate_spec hc2 with ⟨_, hp, _⟩ | ⟨_, hsec, _, _⟩
        · exact Or.inl (primaryReady_state hp)
        · exact Or.inr (secondaryReady_state hsec)
      have hc2mem : c2 ∈ db.map (claimCAS c1 w1) := claimCandidate_mem hc2
      rw [List.mem_map] at hc2mem
      obtain ⟨x, hx, hfx⟩ := hc2mem
      have hcasid : (claimCAS c1 w1 x).id = x.id := by
        unfold claimCAS
        by_cases hcond : (x.id == c1.id && x.state == c1.state) = true
        · rw [if_pos hcond]
        · rw [if_neg hcond]
      have hxid : x.id = c1.id := by
        rw [← hcasid, hfx, ← hid2, ← heq, hid1]
      have hxc1 : x = c1 :=
        List.inj_on_of_nodup_map hids hx (claimCandidate_mem hc1) hxid
      subst hxc1
      have hproc : c2.state = JobState.processing := by
        rw [← hfx]
        unfold claimCAS
        rw [if_pos]
        rw [Bool.and_eq_true]
        exact ⟨beq_self_eq_true _, beq_self_eq_true _⟩
      rcases hc2state with h | h <;> rw [hproc] at h <;> exact JobState.noConfusion h

/-- Witness for C4: on `dbW` the claims by `w1` then `w2` return `m0`
and `m1`, which are distinct. -/
theorem c4_no_double_claim_witness : jA.id ≠ jB.id :=
  c4_no_double_claim dbW 10 11 "w1" "w2" (by decide) jA jB (by decide) (by decide)

/-- C5 counterexample: `dlq retry` of the DEAD record `d1` (stored
`updated_at = 5`) succeeds, yet the record's `updated_at` is still 5
afterwards — the CLI never assigns `updated_at`, so a call at any later
time (say 6) does not stamp it. -/
theorem c5_counterexample :
    (dlqRetry dbD "d1").1 = DlqResult.ok ∧
    ((dlqRetry dbD "d1").2.find? (fun r => r.id == "d1")).map Row.updatedAt = some 5 ∧
    (5 : Nat) ≠ 6 := by decide

/-- C5 (amended): `dlq retry` returns NotFound for an unknown id and
NotDead for a record not in DEAD, leaving the store unchanged in both
cases; on a DEAD record it returns Ok and writes the record back with
state PENDING, `attempts = 0` and `next_retry_at` null, while
`updated_at` keeps its previous value (it is not refreshed). -/
theorem c5_dlq_retry_amended (db : List Row) (jid : String) :
    (getJob db jid = none → dlqRetry db jid = (DlqResult.notFound, db)) ∧
    (∀ j, getJob db jid = some j → j.state ≠ JobState.dead →
      dlqRetry db jid = (DlqResult.notDead, db)) ∧
    (∀ j, getJob db jid = some j → j.state = JobState.dead →
      (dlqRetry db jid).1 = DlqResult.ok ∧
      getJob (dlqRetry db jid).2 jid =
        some { j with state := JobState.pending, attempts := 0, nextRetryAt := none }) := by
  refine ⟨?_, ?_, ?_⟩
  · intro h
    unfold dlqRetry
    rw [h]
  · intro j hj hne
    unfold dlqRetry
    rw [hj]
    have hb : ¬ ((j.state == JobState.dead) = true) := fun hb => hne (eq_of_beq hb)
    dsimp only
    rw [if_neg hb]
  · intro j hj hd
    have hb : (j.state == JobState.dead) = true := beq_iff_eq.mpr hd
    have hdlq : dlqRetry db jid =
        (DlqResult.ok, updateJob db
          { j with state := JobState.pending, attempts := 0, nextRetryAt := none } none) := by
      unfold dlqRetry
      rw [hj]
      dsimp only
      rw [if_pos hb]
    obtain ⟨r0, hr0, hrj⟩ := getJob_some_elim hj
    refine ⟨by rw [hdlq], ?_⟩
    rw [hdlq]
    dsimp only
    unfold getJob
    rw [find?_updateJob, hr0]
    subst hrj
    simp only [Option.map_some']
    have hcnd : (r0.id == (rowToJob r0).id) = true := beq_self_eq_true r0.id
    rw [if_pos hcnd]
    rfl

/-- Witness for the amended C5 on the concrete DEAD record `d1`. -/
theorem c5_dlq_retry_amended_witness :
    (dlqRetry dbD "d1").1 = DlqResult.ok ∧
    getJob (dlqRetry dbD "d1").2 "d1" =
      some { jD with state := JobState.pending, attempts := 0, nextRetryAt := none } :=
  (c5_dlq_retry_amended dbD "d1").2.2 jD (by decide) (by decide)

/-- C8 counterexample: a job enqueued with naive `utcnow()` timestamps
(as every job built by `enqueue` is) does not round-trip to an equal
record: `get_job` returns timezone-aware datetimes, so `created_at` and
`updated_at` differ from the originals as Python values. -/
theorem c8_counterexample : getJob (addJob [] jN).2 jN.id ≠ some jN := by decide

/-- C8 (amended): after `add_job(j)` for a fresh id, `get_job(j.id)`
returns a record that agrees with `j` on `id`, `command`, `state`,
`attempts`, `max_retries` and on the instants of all three time fields,
but whose datetime fields are timezone-aware; the result equals `j`
exactly iff `j`'s datetimes were already aware. -/
theorem c8_round_trip_amended (db : List Row) (j : Job)
    (h : ∀ r ∈ db, r.id ≠ j.id) :
    getJob (addJob db j).2 j.id =
      some { j with createdAt := ⟨j.createdAt.val, true⟩,
                    updatedAt := ⟨j.updatedAt.val, true⟩,
                    nextRetryAt := j.nextRetryAt.map (fun t => ⟨t.val, true⟩) } := by
  have hany : ¬ ((db.any (fun r => r.id == j.id)) = true) := by
    intro hc
    obtain ⟨r, hr, hb⟩ := List.any_eq_true.mp hc
    exact h r hr (eq_of_beq hb)
  unfold addJob
  rw [if_neg hany]
  dsimp only
  unfold getJob
  rw [List.find?_append]
  have hnone : db.find? (fun r => r.id == j.id) = none :=
    List.find?_eq_none.mpr (fun x hx hb => h x hx (eq_of_beq hb))
  rw [hnone, Option.none_or]
  have hps : ((serializeRow j).id == j.id) = true := beq_self_eq_true j.id
  rw [List.find?_cons, hps]
  dsimp only
  refine congrArg some ?_
  unfold rowToJob serializeRow
  dsimp only
  rw [Option.map_map]
  rfl

/-- Witness for the amended C8: round-tripping the naive-timestamped job
`jN` through an empty store. -/
theorem c8_round_trip_amended_witness :
    getJob (addJob [] jN).2 jN.id =
      some { jN with createdAt := ⟨jN.createdAt.val, true⟩,
                     updatedAt := ⟨jN.updatedAt.val, true⟩,
                     nextRetryAt := jN.nextRetryAt.map (fun t => ⟨t.val, true⟩) } :=
  c8_round_trip_amended [] jN (fun r hr => absurd hr (List.not_mem_nil r))

/-- C9 counterexample: claiming the pending record `t1` (stored
`updated_at = 5`) at time 10 transitions it to PROCESSING but leaves its
`updated_at` at 5: the claim UPDATE sets only `state` and `worker_id`. -/
theorem c9_counterexample :
    ((getPendingJob dbP 10 "w1").2.find? (fun r => r.id == "t1")).map
        (fun r => (r.state, r.updatedAt)) = some (JobState.processing, 5) ∧
    (5 : Nat) ≠ 10 := by decide

/-- C9 (amended): only the outcome write refreshes `updated_at` (to the
`utcnow()` taken by the `mark_*` mutator); the claim transition rewrites
no row's `updated_at`, and `dlq retry` writes the record back with the
`updated_at` it already carried. -/
theorem c9_updated_at_amended (db : List Row) (j : Job) (base now now2 : Nat)
    (wid jid : String) (success : Bool) :
    (∀ r ∈ recordOutcome base db j success now wid, r.id = j.id → r.updatedAt = now) ∧
    ((getPendingJob db now2 wid).2.map Row.updatedAt = db.map Row.updatedAt) ∧
    (∀ r1 ∈ (dlqRetry db jid).2, ∃ r ∈ db, r1.updatedAt = r.updatedAt) := by
  refine ⟨?_, ?_, ?_⟩
  · intro r hr hrid
    unfold recordOutcome at hr
    by_cases hs : success = true
    · rw [if_pos hs] at hr
      exact updateJob_updatedAt hr hrid
    · rw [if_neg hs] at hr
      have h2 := updateJob_updatedAt hr
        (hrid.trans (handleFailure_id base j now).symm)
      rw [handleFailure_updatedAt] at h2
      exact h2
  · cases hcand : claimCandidate db now2 with
    | none => rw [getPendingJob_of_cand_none wid hcand]
    | some c =>
      rw [getPendingJob_of_cand_some wid hcand]
      dsimp only
      rw [List.map_map]
      refine List.map_congr_left ?_
      intro r hr
      show (claimCAS c wid r).updatedAt = r.updatedAt
      unfold claimCAS
      by_cases hc : (r.id == c.id && r.state == c.state) = true
      · rw [if_pos hc]
      · rw [if_neg hc]
  · intro r1 hr1
    unfold dlqRetry at hr1
    cases hg : getJob db jid with
    | none =>
      rw [hg] at hr1
      exact ⟨r1, hr1, rfl⟩
    | some jj =>
      rw [hg] at hr1
      dsimp only at hr1
      by_cases hb : (jj.state == JobState.dead) = true
      · rw [if_pos hb] at hr1
        dsimp only at hr1
        rcases updateJob_mem_cases hr1 with ⟨x, hx, hEq⟩ | hup
        · exact ⟨x, hx, by rw [hEq]⟩
        · obtain ⟨r0, hr0, hrj⟩ := getJob_some_elim hg
          refine ⟨r0, List.mem_of_find?_eq_some hr0, ?_⟩
          rw [hup, ← hrj]
          rfl
      · rw [if_neg hb] at hr1
        exact ⟨r1, hr1, rfl⟩

/-- Witness for the amended C9: the failed-outcome write at time 7 stamps
the row of `t1` with `updated_at = 7`. -/
theorem c9_updated_at_amended_witness : rStar.updatedAt = 7 :=
  (c9_updated_at_amended dbP2 jP 2 7 10 "w1" "t1" false).1 rStar (by decide) (by decide)

end QueueCTL
